import Mathlib

/-!
Verification of the CSVtoQDC codebook assembly engine (`CSVtoQDC/app.py`).

The Python source is shallowly embedded: `Code` and `CodeClosure` become a
`Code` structure and an `Entity` sum; the `Codebook.__load_code_lists`
algorithm becomes a pure recursion over the sorted working-name list with the
CSV files supplied as a lookup function (`FS`); `open` on a missing file
becomes an `Except` error, mirroring Python exception propagation; the error
logger becomes an explicit log-event list; `uuid.uuid4()` is abstracted as an
injective supply indexed by construction order (`guidAt`).  Python string
operations (`lower`, `title`, `sorted`, `split`) are re-implemented over
`String.data` at the ASCII level so that every definition evaluates inside the
kernel.
-/

/-! ## Python string primitives -/

/-- Python `str.lower()` (ASCII level): lower-case every character. -/
def pyLower (s : String) : String := ⟨s.data.map Char.toLower⟩

/-- Helper for `pyTitle`: the Boolean records whether the previous character
was alphabetic (Python title-cases the first cased character of each word and
lower-cases the following cased characters). -/
def charTitle : Bool → List Char → List Char
  | _, [] => []
  | prevAlpha, c :: cs =>
    if c.isAlpha then
      (if prevAlpha then c.toLower else c.toUpper) :: charTitle true cs
    else
      c :: charTitle false cs

/-- Python `str.title()` (ASCII level). -/
def pyTitle (s : String) : String := ⟨charTitle false s.data⟩

/-- Python string `<`: lexicographic comparison by code point. -/
def charListLt : List Char → List Char → Bool
  | _, [] => false
  | [], _ :: _ => true
  | a :: as, b :: bs =>
    if a.toNat < b.toNat then true
    else if b.toNat < a.toNat then false
    else charListLt as bs

/-- Python `a < b` on strings. -/
def pyStrLt (a b : String) : Bool := charListLt a.data b.data

/-- Python `a <= b` on strings (total order: `¬ b < a`). -/
def pyLe (a b : String) : Bool := !(pyStrLt b a)

theorem charListLt_irrefl : ∀ as, charListLt as as = false := by
  intro as
  induction as with
  | nil => rfl
  | cons a as ih => simp [charListLt, ih]

theorem charListLt_asymm : ∀ as bs, charListLt as bs = true → charListLt bs as = false := by
  intro as
  induction as with
  | nil =>
    intro bs h
    cases bs with
    | nil => simp [charListLt] at h
    | cons b bs => simp [charListLt]
  | cons a as ih =>
    intro bs h
    cases bs with
    | nil => simp [charListLt] at h
    | cons b bs =>
      simp only [charListLt] at h ⊢
      by_cases h1 : a.toNat < b.toNat
      · have h2 : ¬ b.toNat < a.toNat := by omega
        simp [h1, h2]
      · by_cases h2 : b.toNat < a.toNat
        · simp [h1, h2] at h
        · simp [h1, h2] at h ⊢
          exact ih bs h

theorem charToNat_inj {a b : Char} (h : a.toNat = b.toNat) : a = b := by
  cases a with
  | mk av avh =>
    cases b with
    | mk bv bvh =>
      have : av = bv := by
        apply UInt32.ext
        simpa [Char.toNat] using h
      subst this
      rfl

theorem charListLt_connect :
    ∀ as bs, charListLt as bs = false → charListLt bs as = false → as = bs := by
  intro as
  induction as with
  | nil =>
    intro bs h1 _
    cases bs with
    | nil => rfl
    | cons b bs => simp [charListLt] at h1
  | cons a as ih =>
    intro bs h1 h2
    cases bs with
    | nil => simp [charListLt] at h2
    | cons b bs =>
      simp only [charListLt] at h1 h2
      by_cases hab : a.toNat < b.toNat
      · simp [hab] at h1
      · by_cases hba : b.toNat < a.toNat
        · simp [hab, hba] at h2
        · simp [hab, hba] at h1 h2
          have hc : a = b := charToNat_inj (by omega)
          rw [hc, ih bs h1 h2]

theorem charListLt_trans :
    ∀ as bs cs, charListLt as bs = true → charListLt bs cs = true →
      charListLt as cs = true := by
  intro as
  induction as with
  | nil =>
    intro bs cs _ h2
    cases cs with
    | nil =>
      cases bs with
      | nil => simp [charListLt] at h2
      | cons b bs => simp [charListLt] at h2
    | cons c cs => simp [charListLt]
  | cons a as ih =>
    intro bs cs h1 h2
    cases bs with
    | nil => simp [charListLt] at h1
    | cons b bs =>
      cases cs with
      | nil => simp [charListLt] at h2
      | cons c cs =>
        simp only [charListLt] at h1 h2 ⊢
        by_cases hab : a.toNat < b.toNat
        · by_cases hbc : b.toNat < c.toNat
          · simp [show a.toNat < c.toNat by omega]
          · by_cases hcb : c.toNat < b.toNat
            · simp [hbc, hcb] at h2
            · simp [show a.toNat < c.toNat by omega]
        · by_cases hba : b.toNat < a.toNat
          · simp [hab, hba] at h1
          · simp [hab, hba] at h1
            by_cases hbc : b.toNat < c.toNat
            · simp [show a.toNat < c.toNat by omega]
            · by_cases hcb : c.toNat < b.toNat
              · simp [hbc, hcb] at h2
              · simp [hbc, hcb] at h2
                have hac : ¬ a.toNat < c.toNat := by omega
                have hca : ¬ c.toNat < a.toNat := by omega
                simp [hac, hca]
                exact ih bs cs h1 h2

/-- `pyLe` as a relation, used as the ordering for Python `sorted`. -/
def pyLeP (a b : String) : Prop := pyLe a b = true

instance : DecidableRel pyLeP :=
  fun a b => inferInstanceAs (Decidable (pyLe a b = true))

instance : IsTotal String pyLeP := by
  constructor
  intro a b
  by_cases h : charListLt b.data a.data = true
  · right
    have := charListLt_asymm _ _ h
    simp [pyLeP, pyLe, pyStrLt, this]
  · left
    simp [pyLeP, pyLe, pyStrLt]
    simpa using h

instance : IsTrans String pyLeP := by
  constructor
  intro a b c h1 h2
  simp [pyLeP, pyLe, pyStrLt] at h1 h2 ⊢
  by_cases hca : charListLt c.data a.data = true
  · by_cases hbc : charListLt b.data c.data = true
    · exact absurd (charListLt_trans _ _ _ hbc hca) (by simp [h1])
    · have hbceq : b.data = c.data :=
        charListLt_connect _ _ (by simpa using hbc) (by simpa using h2)
      rw [← hbceq] at hca
      simp [hca] at h1
  · simpa using hca

/-- Python `sorted` on strings: a stable ascending sort.  Since the sort key
is the string itself, any `pyLeP`-sorted permutation is unique, so insertion
sort models `sorted` exactly. -/
def pySorted (l : List String) : List String := List.insertionSort pyLeP l

/-! ## The `Code` entity (source: class `Code`) -/

/-- One code or category of codes.  Fields mirror the attributes set in
`Code.__init__`; the random `uuid.uuid4()` is replaced by an explicitly
supplied `guid` string. -/
structure Code where
  guid : String
  name : String
  parent : Option String
  colour : Option String
  isCodable : Bool
  isCategory : Bool
  description : Option String
deriving DecidableEq

/-- The `Code.name` property: prepends the parent category label when a
(truthy) parent was stored. -/
def Code.renderedName (c : Code) : String :=
  match c.parent with
  | some p => if p = "" then c.name else p ++ " - " ++ c.name
  | none => c.name

/-- The `Code.isCodable` property: renders the Boolean as a literal string. -/
def Code.isCodableStr (c : Code) : String :=
  if c.isCodable then "true" else "false"

/-- The `Code.isCategory` property: `""` for a category, `"/"` otherwise. -/
def Code.isCategoryStr (c : Code) : String :=
  if c.isCategory then "" else "/"

/-- The `Code.description` property: a nested `Description` element when the
description is truthy, otherwise the category-dependent tag ending. -/
def Code.descriptionStr (c : Code) : String :=
  match c.description with
  | some d =>
    if d = "" then c.isCategoryStr ++ ">"
    else "><Description>" ++ d ++ "</Description></Code>"
  | none => c.isCategoryStr ++ ">"

/-- The `Code.colour` property: a `color` attribute with a trailing space when
 a colour is truthy, the empty string otherwise. -/
def Code.colourStr (c : Code) : String :=
  match c.colour with
  | some col => if col = "" then "" else "color=\"" ++ col ++ "\" "
  | none => ""

/-- The `Code.text` property.  The Python source wraps the fragment in a
newline-padded f-string and calls `.strip()`; since the fragment always starts
with `<` and ends with `>`, the strip removes exactly that padding, so the
property equals the plain concatenation. -/
def Code.text (c : Code) : String :=
  "<Code " ++ c.colourStr ++ "guid=\"" ++ c.guid ++ "\" isCodable=\"" ++
    c.isCodableStr ++ "\" name=\"" ++ c.renderedName ++ "\"" ++ c.descriptionStr

/-- An element of the flat entity sequence: a `Code` or a `CodeClosure`. -/
inductive Entity where
  | code (c : Code) : Entity
  | closure : Entity
deriving DecidableEq

/-- Rendered text of an entity; `CodeClosure.text` is the fixed closing tag. -/
def Entity.text : Entity → String
  | .code c => c.text
  | .closure => "</Code>"

/-! ## Codebook constants (source: class `Codebook`) -/

/-- The fixed XML header (`Codebook.HEADER`). -/
def HEADER : String :=
  "<?xml version=\"1.0\" encoding=\"UTF-8\" standalone=\"no\" ?><CodeBook origin=\"NVivo 12 For Mac\" xmlns=\"urn:QDA-XML:codebook:1:0\" xmlns:xsi=\"http://www.w3.org/2001/XMLSchema-instance\" xsi:schemaLocation=\"urn:QDA-XML:codebook:1:0 Codebook.xsd\"><Codes>"

/-- The fixed XML footer (`Codebook.FOOTER`). -/
def FOOTER : String := "</Codes></CodeBook>"

/-- The eight-colour palette (`Codebook.COLOURS`). -/
def COLOURS : List String :=
  ["#00FF00", "#FF0000", "#FFFF00", "#0000FF",
   "#008080", "#00FFFF", "#FF00FF", "#008000"]

/-- The reserved generic list name (`Codebook.GENERIC`). -/
def GENERIC : String := "top-level-codes"

/-! ## The load algorithm (source: `Codebook.__load_code_lists`) -/

/-- A parsed CSV row: a list of string cells. -/
abbrev Row := List String

/-- The CSV files of one project, keyed by list base name: `some rows` when
`{name}.csv` opens and parses, `none` when opening raises
`FileNotFoundError`. -/
abbrev FS := String → Option (List Row)

/-- Events sent to the per-project error logger. -/
inductive LogEvent where
  /-- `__read_project_files`: `.append(...).lower()` is called on `None`,
  so every discovered file logs one `AttributeError`. -/
  | attrErr (file : String) : LogEvent
  /-- `__load_code_lists`, generic rows: `row[1]` raised `IndexError`. -/
  | indexErr (row : Row) : LogEvent
  /-- `__load_code_lists`, category rows: `label, description = row`
  raised `ValueError`. -/
  | valueErr (row : Row) : LogEvent
deriving DecidableEq

/-- A Python exception that escapes `__load_code_lists` (and hence the
`Codebook` constructor): only `FileNotFoundError` from `open` is possible. -/
inductive PyError where
  | fileNotFound (name : String) : PyError
deriving DecidableEq

deriving instance DecidableEq for Except

/-- `True` exactly on an escaping exception. -/
def raisesError {α : Type} : Except PyError α → Bool
  | Except.error _ => true
  | Except.ok _ => false

/-- The guid supply standing in for `uuid.uuid4()`: the `k`-th `Code`
constructed during a load receives `guidAt k`. -/
def guidAt (k : Nat) : String := "uuid-" ++ toString k

/-- `next(colours)` on `cycle(Codebook.COLOURS)`: the colour drawn on the
`i`-th loop iteration. -/
def colourAt (i : Nat) : String := COLOURS.getD (i % COLOURS.length) ""

/-- Generic row processing, step label: `row[0].lower()` (also used by the
recovery branch after `IndexError`). -/
def genericLabel (row : Row) : String := pyLower (row.headD "")

/-- The labels appended to `temp` from the generic list, in row order; blank
rows are skipped by `if not row: continue`. -/
def genericLabels (rows : List Row) : List String :=
  (rows.filter (fun r => r ≠ ([] : Row))).map genericLabel

/-- Log events produced while reading the generic list: one `IndexError` per
non-blank row lacking a second column. -/
def genericLogs (rows : List Row) : List LogEvent :=
  (rows.filter (fun r => r ≠ ([] : Row))).filterMap
    (fun r => if r.length = 1 then some (.indexErr r) else none)

/-- The `descriptions` dictionary built from the generic rows (insertion
order; a later binding for the same label overwrites an earlier one).  Its
only consumer in the source is the commented-out bare-code `else` branch, so
nothing in the load output depends on it. -/
def genericDescriptions (rows : List Row) : List (String × Option String) :=
  (rows.filter (fun r => r ≠ ([] : Row))).map
    (fun r => (genericLabel r, r.get? 1))

/-- The category `Code` appended when a working name is an available list:
`Code(code.title(), colour=colour, isCategory=True)`. -/
def categoryCode (g : Nat) (colour listName : String) : Code :=
  { guid := guidAt g
    name := pyTitle listName
    parent := none
    colour := some colour
    isCodable := true
    isCategory := true
    description := none }

/-- The child `Code` appended for one non-blank category row.  The two
source branches — successful `label, description = row` unpacking (row length
exactly 2) and the `ValueError` fallback `Code(row[0].title(), colour=colour,
parent=code.title())` — differ only in the description, so they are expressed
as one conditional construction. -/
def childCode (g : Nat) (colour cat : String) (row : Row) : Code :=
  { guid := guidAt g
    name := pyTitle (row.headD "")
    parent := some (pyTitle cat)
    colour := some colour
    isCodable := true
    isCategory := false
    description := if row.length = 2 then row.get? 1 else none }

/-- The child entities of one category, in row order (`rows` already has
blank rows removed); the `j`-th child consumes guid index `g + 1 + j`. -/
def childEntities (g : Nat) (colour cat : String) (rows : List Row) : List Entity :=
  rows.enum.map (fun p => Entity.code (childCode (g + 1 + p.1) colour cat p.2))

/-- Log events of one category body: one `ValueError` per non-blank row whose
length is not exactly 2. -/
def rowLog (row : Row) : Option LogEvent :=
  if row.length = 2 then none else some (.valueErr row)

/-- All log events of one category body, in row order. -/
def blockLogs (rows : List Row) : List LogEvent := rows.filterMap rowLog

/-- The contiguous run of entities one category contributes: the opening
category `Code`, its children, then exactly one `CodeClosure`. -/
def categoryBlock (g : Nat) (colour listName : String) (rows : List Row) : List Entity :=
  Entity.code (categoryCode g colour listName) ::
    (childEntities g colour listName rows ++ [Entity.closure])

/-- The main loop of `__load_code_lists` over `sorted(temp)`.  `i` is the
loop-iteration index (drives the colour cycle — it advances on every name,
including the skipped ones), `g` the guid-supply index (advances only when a
`Code` is constructed).  A name that is an available list opens `{name}.csv`
(raising if absent) and contributes a `categoryBlock`; any other name — one
derived from the generic list — contributes nothing, because the bare-code
`else` branch is commented out in the source. -/
def processNames (fs : FS) (lists : List String) :
    Nat → Nat → List String → Except PyError (List Entity × List LogEvent)
  | _, _, [] => Except.ok ([], [])
  | i, g, n :: rest =>
    if n ∈ lists then
      match fs n with
      | none => Except.error (PyError.fileNotFound n)
      | some rows =>
        match processNames fs lists (i + 1) (g + 1 + (rows.filter (fun r => r ≠ ([] : Row))).length) rest with
        | Except.error e => Except.error e
        | Except.ok (tail, tailLogs) =>
          Except.ok
            (categoryBlock g (colourAt i) n (rows.filter (fun r => r ≠ ([] : Row))) ++ tail,
             blockLogs (rows.filter (fun r => r ≠ ([] : Row))) ++ tailLogs)
    else
      processNames fs lists (i + 1) g rest

/-- `temp` after the generic branch: the available lists minus the generic
name, followed by the labels of the generic rows (no deduplication — `temp`
is a Python list built by `append`). -/
def tempNames (lists : List String) (rows : List Row) : List String :=
  lists.filter (fun l => l ≠ GENERIC) ++ genericLabels rows

/-- `Codebook.__load_code_lists`: returns the flat entity sequence and the
chronological log events, or the escaping exception. -/
def loadCodeLists (fs : FS) (lists : List String) :
    Except PyError (List Entity × List LogEvent) :=
  if GENERIC ∈ lists then
    match fs GENERIC with
    | none => Except.error (PyError.fileNotFound GENERIC)
    | some rows =>
      match processNames fs lists 0 0 (pySorted (tempNames lists rows)) with
      | Except.error e => Except.error e
      | Except.ok (es, logs) => Except.ok (es, genericLogs rows ++ logs)
  else
    processNames fs lists 0 0 (pySorted lists)

/-- The working-name list `sorted(temp)` that the main loop iterates, as
determined by the available lists and the generic file. -/
def workingNames (fs : FS) (lists : List String) : Except PyError (List String) :=
  if GENERIC ∈ lists then
    match fs GENERIC with
    | none => Except.error (PyError.fileNotFound GENERIC)
    | some rows => Except.ok (pySorted (tempNames lists rows))
  else
    Except.ok (pySorted lists)

/-! ## Project discovery (source: `Codebook.__read_project_files`) -/

/-- The code-list names recorded for one project from its file names.  The
source line `projects[project].append(lst[0]).lower()` appends the part of
the file name before the first dot and then calls `.lower()` on the `None`
returned by `append`, so the stored name keeps its original case and every
file logs one `AttributeError`.  Empty base names are then removed and the
result sorted. -/
def projectListNames (files : List String) : List String :=
  pySorted ((files.map (fun f => String.mk (f.data.takeWhile (fun c => c ≠ '.')))).filter
    (fun s => s ≠ ""))

/-- The `AttributeError` logged for every discovered file. -/
def projectListLogs (files : List String) : List LogEvent :=
  files.map (fun f => LogEvent.attrErr f)

/-! ## The `Codebook` aggregate -/

/-- A constructed `Codebook`.  `none` in `code_lists` / `codes` models an
attribute the constructor never assigned (the unknown-project branch only
sets `self.__name = None`). -/
structure Codebook where
  name : Option String
  code_lists : Option (List String)
  codes : Option (List Entity)
deriving DecidableEq

/-- Accessing an attribute that was never assigned raises `AttributeError`. -/
inductive AttrFailure where
  | attrError : AttrFailure
deriving DecidableEq

/-- `Codebook.__init__`: on a known project the code lists and the eagerly
loaded entities are stored (an exception during loading escapes the
constructor); on an unknown project only `__name = None` is assigned.  The
logger is an external sink, so the load's log events are not kept on the
instance. -/
def mkCodebook (projects : String → Option (List String)) (fs : FS)
    (pname : String) : Except PyError Codebook :=
  match projects pname with
  | some lists =>
    match loadCodeLists fs lists with
    | Except.error e => Except.error e
    | Except.ok (es, _) =>
      Except.ok { name := some pname, code_lists := some lists, codes := some es }
  | none => Except.ok { name := none, code_lists := none, codes := none }

/-- The `codes` property. -/
def Codebook.codesGet (cb : Codebook) : Except AttrFailure (List Entity) :=
  match cb.codes with
  | some cs => Except.ok cs
  | none => Except.error AttrFailure.attrError

/-- The `code_lists` property. -/
def Codebook.codeListsGet (cb : Codebook) : Except AttrFailure (List String) :=
  match cb.code_lists with
  | some ls => Except.ok ls
  | none => Except.error AttrFailure.attrError

/-- The `xml` property: the concatenated entity fragments. -/
def Codebook.xmlGet (cb : Codebook) : Except AttrFailure String :=
  match cb.codesGet with
  | Except.ok cs => Except.ok (String.join (cs.map Entity.text))
  | Except.error e => Except.error e

/-- The `text` property: header, entity fragments, footer. -/
def Codebook.textGet (cb : Codebook) : Except AttrFailure String :=
  match cb.xmlGet with
  | Except.ok x => Except.ok (HEADER ++ x ++ FOOTER)
  | Except.error e => Except.error e

/-- A Python return value of `Codebook.write`: the explicit `False`, the
implicit `None` of the exception handler, or the written file name. -/
inductive PyRet where
  | pyFalse : PyRet
  | pyNone : PyRet
  | path (s : String) : PyRet
deriving DecidableEq

/-- Python truthiness of a `write` result. -/
def PyRet.truthy : PyRet → Bool
  | .pyFalse => false
  | .pyNone => false
  | .path s => s ≠ ""

/-- One file written to disk. -/
structure FileWrite where
  path : String
  content : String
deriving DecidableEq

/-- `Codebook.write`: `if not self.name: return False` happens before any
I/O; otherwise the rendered text is written to
`{cwd}/export/{name}/{timestamp}.qdc` and that path returned.  Any exception
inside the `try` (including the `AttributeError` a half-initialised instance
would raise while rendering) is logged and `None` is returned implicitly.
The second component lists the file writes performed. -/
def Codebook.write (cb : Codebook) (cwd ts : String) : PyRet × List FileWrite :=
  match cb.name with
  | none => (PyRet.pyFalse, [])
  | some n =>
    if n = "" then (PyRet.pyFalse, [])
    else
      match cb.textGet with
      | Except.error _ => (PyRet.pyNone, [])
      | Except.ok t =>
        (PyRet.path (cwd ++ "/export/" ++ n ++ "/" ++ ts ++ ".qdc"),
         [{ path := cwd ++ "/export/" ++ n ++ "/" ++ ts ++ ".qdc", content := t }])

/-! ## Structural lemmas about the load algorithm -/

theorem childEntities_length (g : Nat) (colour cat : String) (rows : List Row) :
    (childEntities g colour cat rows).length = rows.length := by
  simp [childEntities]

theorem childEntities_mem (g : Nat) (colour cat : String) (rows : List Row) :
    ∀ e ∈ childEntities g colour cat rows,
      ∃ cc : Code, e = Entity.code cc ∧ cc.isCategory = false ∧
        cc.parent = some (pyTitle cat) ∧ cc.colour = some colour := by
  intro e he
  simp only [childEntities, List.mem_map] at he
  obtain ⟨p, _, hp⟩ := he
  exact ⟨childCode (g + 1 + p.1) colour cat p.2, hp.symm, rfl, rfl, rfl⟩

theorem closure_not_mem_childEntities (g : Nat) (colour cat : String) (rows : List Row) :
    Entity.closure ∉ childEntities g colour cat rows := by
  intro h
  obtain ⟨cc, hcc, -, -, -⟩ := childEntities_mem g colour cat rows Entity.closure h
  cases hcc

theorem categoryBlock_count_closure (g : Nat) (colour n : String) (rows : List Row) :
    (categoryBlock g colour n rows).count Entity.closure = 1 := by
  have h0 : (childEntities g colour n rows).count Entity.closure = 0 :=
    List.count_eq_zero.mpr (closure_not_mem_childEntities g colour n rows)
  simp [categoryBlock, List.count_cons, List.count_append, h0]

/-- Destructor for a successful run of the main loop on a nonempty name
list: the head is either an available list (contributing its block) or a
skipped generic-derived name. -/
theorem processNames_cons_ok (fs : FS) (lists : List String) (i g : Nat)
    (n : String) (rest : List String) (es : List Entity) (logs : List LogEvent)
    (h : processNames fs lists i g (n :: rest) = Except.ok (es, logs)) :
    (n ∈ lists ∧ ∃ rows tail tailLogs,
      fs n = some rows ∧
      processNames fs lists (i + 1)
          (g + 1 + (rows.filter (fun r => r ≠ ([] : Row))).length) rest =
        Except.ok (tail, tailLogs) ∧
      es = categoryBlock g (colourAt i) n (rows.filter (fun r => r ≠ ([] : Row))) ++ tail ∧
      logs = blockLogs (rows.filter (fun r => r ≠ ([] : Row))) ++ tailLogs) ∨
    (n ∉ lists ∧ processNames fs lists (i + 1) g rest = Except.ok (es, logs)) := by
  by_cases hn : n ∈ lists
  · left
    refine ⟨hn, ?_⟩
    simp only [processNames, if_pos hn] at h
    split at h
    · cases h
    · rename_i rows hfs
      refine ⟨rows, ?_⟩
      split at h
      · cases h
      · rename_i tail tailLogs hrec
        simp only [Except.ok.injEq, Prod.mk.injEq] at h
        exact ⟨tail, tailLogs, hfs, hrec, h.1.symm, h.2.symm⟩
  · right
    refine ⟨hn, ?_⟩
    simpa only [processNames, if_neg hn] using h

/-- If the `k`-th working name is an available list whose file is readable,
a successful run's output contains that category's contiguous block, coloured
by the loop index `i + k`. -/
theorem processNames_get (fs : FS) (lists : List String) (name : String)
    (rows : List Row) (hcat : name ∈ lists) (hfs : fs name = some rows) :
    ∀ (names : List String) (k i g : Nat) (es : List Entity) (logs : List LogEvent),
      names.get? k = some name →
      processNames fs lists i g names = Except.ok (es, logs) →
      ∃ pre post g2,
        es = pre ++ categoryBlock g2 (colourAt (i + k)) name
            (rows.filter (fun r => r ≠ ([] : Row))) ++ post := by
  intro names
  induction names with
  | nil => intro k i g es logs hk; simp at hk
  | cons n rest ih =>
    intro k i g es logs hk hrun
    rcases processNames_cons_ok fs lists i g n rest es logs hrun with
      ⟨hn, rows0, tail, tailLogs, hfs0, hrec, hes, -⟩ | ⟨hn, hrec⟩
    · cases k with
      | zero =>
        simp only [List.get?] at hk
        injection hk with hk
        subst hk
        have hr : rows0 = rows := by
          rw [hfs0] at hfs
          exact Option.some.inj hfs
        subst hr
        exact ⟨[], tail, g, by simpa using hes⟩
      | succ k =>
        simp only [List.get?] at hk
        obtain ⟨pre, post, g2, htail⟩ := ih k (i + 1) _ tail tailLogs hk hrec
        refine ⟨categoryBlock g (colourAt i) n
          (rows0.filter (fun r => r ≠ ([] : Row))) ++ pre, post, g2, ?_⟩
        have harith : i + 1 + k = i + (k + 1) := by omega
        rw [hes, htail, harith]
        simp [List.append_assoc]
    · cases k with
      | zero =>
        simp only [List.get?] at hk
        injection hk with hk
        subst hk
        exact absurd hcat hn
      | succ k =>
        simp only [List.get?] at hk
        obtain ⟨pre, post, g2, htail⟩ := ih k (i + 1) g es logs hk hrec
        have harith : i + 1 + k = i + (k + 1) := by omega
        rw [harith] at htail
        exact ⟨pre, post, g2, htail⟩

/-- Working names that are not available lists contribute nothing. -/
theorem processNames_skip (fs : FS) (lists : List String) :
    ∀ (names : List String) (i g : Nat), (∀ n ∈ names, n ∉ lists) →
      processNames fs lists i g names = Except.ok ([], []) := by
  intro names
  induction names with
  | nil => intro i g _; rfl
  | cons n rest ih =>
    intro i g h
    have hn : n ∉ lists := h n (List.mem_cons_self n rest)
    simp only [processNames, if_neg hn]
    exact ih (i + 1) g (fun m hm => h m (List.mem_cons_of_mem n hm))

/-- A working name that is an available list with a missing file makes the
whole loop raise. -/
theorem processNames_missing (fs : FS) (lists : List String) (name : String)
    (hcat : name ∈ lists) (hmiss : fs name = none) :
    ∀ (names : List String) (i g : Nat), name ∈ names →
      raisesError (processNames fs lists i g names) = true := by
  intro names
  induction names with
  | nil => intro i g h; simp at h
  | cons n rest ih =>
    intro i g hmem
    by_cases hn : n ∈ lists
    · simp only [processNames, if_pos hn]
      split
      · rfl
      · rename_i rows hfs
        have hne : name ≠ n := by
          intro he
          rw [he, hfs] at hmiss
          cases hmiss
        have hmem2 : name ∈ rest := by
          rcases List.mem_cons.mp hmem with he | hr
          · exact absurd he hne
          · exact hr
        split
        · rfl
        · rename_i tail tailLogs hrec
          have := ih (i + 1) (g + 1 + (rows.filter (fun r => r ≠ ([] : Row))).length) hmem2
          rw [hrec] at this
          cases this
    · simp only [processNames, if_neg hn]
      have hne : name ≠ n := by
        intro he
        rw [he] at hcat
        exact hn hcat
      have hmem2 : name ∈ rest := by
        rcases List.mem_cons.mp hmem with he | hr
        · exact absurd he hne
        · exact hr
      exact ih (i + 1) g hmem2

/-- Every `Code` the loop emits is a category code or carries a parent:
the bare-code branch of the source is commented out. -/
theorem processNames_noBareCode (fs : FS) (lists : List String) :
    ∀ (names : List String) (i g : Nat) (es : List Entity) (logs : List LogEvent),
      processNames fs lists i g names = Except.ok (es, logs) →
      ∀ c : Code, Entity.code c ∈ es → c.isCategory = true ∨ c.parent.isSome = true := by
  intro names
  induction names with
  | nil =>
    intro i g es logs h c hc
    cases h
    simp at hc
  | cons n rest ih =>
    intro i g es logs h c hc
    rcases processNames_cons_ok fs lists i g n rest es logs h with
      ⟨hn, rows0, tail, tailLogs, hfs0, hrec, hes, -⟩ | ⟨hn, hrec⟩
    · subst hes
      rcases List.mem_append.mp hc with hin | hin
      · rcases List.mem_cons.mp hin with heq | hin2
        · left
          injection heq with heq
          rw [heq]
          rfl
        · rcases List.mem_append.mp hin2 with hch | hcl
          · right
            obtain ⟨cc, hcc, -, hp, -⟩ :=
              childEntities_mem g (colourAt i) n (rows0.filter (fun r => r ≠ ([] : Row)))
                (Entity.code c) hch
            injection hcc with hcc
            rw [hcc, hp]
            rfl
          · simp at hcl
      · exact ih (i + 1) _ tail tailLogs hrec c hin
    · exact ih (i + 1) g es logs hrec c hc

/-- A successful load determines the working-name list, and the entity
sequence is exactly what the loop over that list produces. -/
theorem loadCodeLists_to_processNames (fs : FS) (lists : List String)
    (es : List Entity) (logs : List LogEvent)
    (h : loadCodeLists fs lists = Except.ok (es, logs)) :
    ∃ names logs2, workingNames fs lists = Except.ok names ∧
      processNames fs lists 0 0 names = Except.ok (es, logs2) := by
  by_cases hg : GENERIC ∈ lists
  · simp only [loadCodeLists, if_pos hg] at h
    split at h
    · cases h
    · rename_i rows hfs
      split at h
      · cases h
      · rename_i es2 logs2 hrec
        simp only [Except.ok.injEq, Prod.mk.injEq] at h
        refine ⟨pySorted (tempNames lists rows), logs2, ?_, ?_⟩
        · simp [workingNames, if_pos hg, hfs]
        · rw [hrec, h.1]
  · simp only [loadCodeLists, if_neg hg] at h
    exact ⟨pySorted lists, logs, by simp [workingNames, if_neg hg], h⟩

/-- An available non-generic list name always appears among the working
names. -/
theorem mem_workingNames (fs : FS) (lists : List String) (name : String)
    (names : List String) (hcat : name ∈ lists) (hne : name ≠ GENERIC)
    (hw : workingNames fs lists = Except.ok names) : name ∈ names := by
  by_cases hg : GENERIC ∈ lists
  · simp only [workingNames, if_pos hg] at hw
    cases hfs : fs GENERIC with
    | none => rw [hfs] at hw; cases hw
    | some rows =>
      rw [hfs] at hw
      injection hw with hw
      subst hw
      have hmem : name ∈ tempNames lists rows :=
        List.mem_append.mpr (Or.inl (List.mem_filter.mpr ⟨hcat, by simp [hne]⟩))
      simpa [pySorted] using ((List.perm_insertionSort pyLeP _).mem_iff).mpr hmem
  · simp only [workingNames, if_neg hg] at hw
    injection hw with hw
    subst hw
    simpa [pySorted] using ((List.perm_insertionSort pyLeP _).mem_iff).mpr hcat

/-! ## Claim theorems -/

theorem append_slash_gt : ("/" : String) ++ ">" = "/>" := by decide

theorem append_empty_gt : ("" : String) ++ ">" = ">" := by decide

/-- Claim C3: for every constructor-argument combination
`(name, colour, isCodable, isCategory, description)` (with no parent), the
rendered fragment of a `Code` is exactly
`<Code ` + colour-attr + `guid="{id}" isCodable="{true|false}" name="{name}"`
+ tail, where the colour attribute keeps its trailing space and is omitted
for an absent (Python-falsy) colour, the Boolean renders as the literal
strings `true`/`false`, and the tail is the nested description element when a
description is present (regardless of `isCategory`), otherwise `/>` for a
non-category and `>` for a category. -/
theorem codeTextGrammar (guid nm : String) (colour : Option String)
    (isCod isCat : Bool) (description : Option String) :
    Code.text { guid := guid, name := nm, parent := none, colour := colour,
                isCodable := isCod, isCategory := isCat, description := description } =
      "<Code " ++
        (match colour with
         | some col => if col = "" then "" else "color=\"" ++ col ++ "\" "
         | none => "") ++
        "guid=\"" ++ guid ++ "\" isCodable=\"" ++
        (if isCod then "true" else "false") ++ "\" name=\"" ++ nm ++ "\"" ++
        (match description with
         | some d =>
           if d = "" then (if isCat then ">" else "/>")
           else "><Description>" ++ d ++ "</Description></Code>"
         | none => if isCat then ">" else "/>") := by
  cases colour <;> cases description <;> cases isCat <;>
    simp [Code.text, Code.colourStr, Code.isCodableStr, Code.renderedName,
      Code.descriptionStr, Code.isCategoryStr, append_slash_gt, append_empty_gt]

/-! ## Concrete fixtures -/

/-- A project with the single ordinary list `fruit`: one well-formed row and
one malformed row (the end-to-end `demo` example). -/
def demoFs : FS := fun n =>
  if n = "fruit" then some [["apple", "a fruit"], ["banana"]] else none

/-- The entity sequence the `demo` project loads to. -/
def demoEntities : List Entity :=
  [Entity.code (categoryCode 0 "#00FF00" "fruit"),
   Entity.code (childCode 1 "#00FF00" "fruit" ["apple", "a fruit"]),
   Entity.code (childCode 2 "#00FF00" "fruit" ["banana"]),
   Entity.closure]

/-- The log events the `demo` project load produces. -/
def demoLogs : List LogEvent := [LogEvent.valueErr ["banana"]]

/-- A project whose only file is the generic list, holding one well-formed
row (the end-to-end `demo2` example, with the source's actual generic
name). -/
def genericOnlyFs : FS := fun n =>
  if n = GENERIC then some [["standalone", "desc text"]] else none

/-- A project with the category `fruit` (empty file) and a generic list
contributing the bare name `apple`. -/
def mixedFs : FS := fun n =>
  if n = GENERIC then some [["apple", "x"]]
  else if n = "fruit" then some ([] : List Row) else none

/-- The entity sequence the `mixedFs` project loads to. -/
def mixedEntities : List Entity :=
  [Entity.code (categoryCode 0 "#FF0000" "fruit"), Entity.closure]

/-- A project whose generic list repeats the category name `fruit`. -/
def duplicateFs : FS := fun n =>
  if n = GENERIC then some [["fruit", "d"]]
  else if n = "fruit" then some ([] : List Row) else none

/-- A filesystem with no readable files. -/
def emptyFs : FS := fun _ => none

/-- A discovery index with the single project `demo` owning list `fruit`. -/
def demoIndex : String → Option (List String) := fun p =>
  if p = "demo" then some ["fruit"] else none

/-- A discovery index with no projects. -/
def emptyIndex : String → Option (List String) := fun _ => none

/-- Claim C1 counterexample: loading a project whose only list is the
generic one (`demo2`, one generic row `("standalone", "desc text")`) emits
no entity at all — not the single bare `Code` the claim requires: the
bare-code `else` branch is commented out in the source. -/
theorem genericOnlyProjectEmitsNothing :
    loadCodeLists genericOnlyFs [GENERIC] = Except.ok ([], []) ∧
    ¬ ∃ c : Code, ∃ logs : List LogEvent,
        loadCodeLists genericOnlyFs [GENERIC] =
          Except.ok ([Entity.code c], logs) := by
  refine ⟨by decide, ?_⟩
  rintro ⟨c, logs, h⟩
  rw [show loadCodeLists genericOnlyFs [GENERIC] = Except.ok ([], []) from by decide] at h
  simp at h

/-- Claim C1 (corrected): a name derived from the generic list that is not a
category name causes the loader to emit nothing at all (no `Code`, no
`CodeClosure`); consequently every `Code` in a successfully loaded entity
sequence is a category code or a parented child — no bare non-category
`Code` is ever produced, and a generic-only project loads to the empty
sequence. -/
theorem noBareCodeEverEmitted (fs : FS) (lists : List String)
    (es : List Entity) (logs : List LogEvent)
    (h : loadCodeLists fs lists = Except.ok (es, logs)) :
    ∀ c : Code, Entity.code c ∈ es → c.isCategory = true ∨ c.parent.isSome = true := by
  obtain ⟨names, logs2, -, hrun⟩ := loadCodeLists_to_processNames fs lists es logs h
  exact processNames_noBareCode fs lists names 0 0 es logs2 hrun

/-- Witness for `noBareCodeEverEmitted` at the `demo` project and its second
emitted code. -/
theorem noBareCodeEverEmitted_witness :
    (childCode 1 "#00FF00" "fruit" ["apple", "a fruit"]).isCategory = true ∨
      (childCode 1 "#00FF00" "fruit" ["apple", "a fruit"]).parent.isSome = true :=
  noBareCodeEverEmitted demoFs ["fruit"] demoEntities demoLogs (by decide)
    (childCode 1 "#00FF00" "fruit" ["apple", "a fruit"]) (by decide)

/-- Claim C2: for every loaded project and every non-generic category whose
file holds N non-blank rows, the entity sequence contains — contiguously and
in this order — exactly one category `Code` (`isCategory = true`), then the
N child codes (successful or fallback, none of them a category, none a
closure), then exactly one `CodeClosure`; the block holds exactly one
closure, and it comes after all the children. -/
theorem categoryBlockContiguous (fs : FS) (lists : List String)
    (name : String) (rows : List Row) (es : List Entity) (logs : List LogEvent)
    (hcat : name ∈ lists) (hne : name ≠ GENERIC) (hfs : fs name = some rows)
    (h : loadCodeLists fs lists = Except.ok (es, logs)) :
    ∃ pre post g colour,
      es = pre ++ (Entity.code (categoryCode g colour name) ::
        (childEntities g colour name (rows.filter (fun r => r ≠ ([] : Row))) ++
          [Entity.closure])) ++ post ∧
      (categoryCode g colour name).isCategory = true ∧
      (childEntities g colour name (rows.filter (fun r => r ≠ ([] : Row)))).length =
        (rows.filter (fun r => r ≠ ([] : Row))).length ∧
      (∀ e ∈ childEntities g colour name (rows.filter (fun r => r ≠ ([] : Row))),
        ∃ cc : Code, e = Entity.code cc ∧ cc.isCategory = false) ∧
      (Entity.code (categoryCode g colour name) ::
        (childEntities g colour name (rows.filter (fun r => r ≠ ([] : Row))) ++
          [Entity.closure])).count Entity.closure = 1 := by
  obtain ⟨names, logs2, hw, hrun⟩ := loadCodeLists_to_processNames fs lists es logs h
  have hmem := mem_workingNames fs lists name names hcat hne hw
  obtain ⟨k, hk⟩ := List.mem_iff_get?.mp hmem
  obtain ⟨pre, post, g2, hes⟩ :=
    processNames_get fs lists name rows hcat hfs names k 0 0 es logs2 hk hrun
  refine ⟨pre, post, g2, colourAt (0 + k), ?_, rfl,
    childEntities_length _ _ _ _, ?_, ?_⟩
  · simpa [categoryBlock] using hes
  · intro e he
    obtain ⟨cc, h1, h2, -, -⟩ := childEntities_mem _ _ _ _ e he
    exact ⟨cc, h1, h2⟩
  · have hcount := categoryBlock_count_closure g2 (colourAt (0 + k)) name
      (rows.filter (fun r => r ≠ ([] : Row)))
    simpa [categoryBlock] using hcount

/-- Witness for `categoryBlockContiguous` at the `demo` project's category
`fruit` with its two non-blank rows. -/
theorem categoryBlockContiguous_witness :
    ∃ pre post g colour,
      demoEntities = pre ++ (Entity.code (categoryCode g colour "fruit") ::
        (childEntities g colour "fruit"
          (([["apple", "a fruit"], ["banana"]] : List Row).filter
            (fun r => r ≠ ([] : Row))) ++ [Entity.closure])) ++ post ∧
      (categoryCode g colour "fruit").isCategory = true ∧
      (childEntities g colour "fruit"
        (([["apple", "a fruit"], ["banana"]] : List Row).filter
          (fun r => r ≠ ([] : Row)))).length =
        (([["apple", "a fruit"], ["banana"]] : List Row).filter
          (fun r => r ≠ ([] : Row))).length ∧
      (∀ e ∈ childEntities g colour "fruit"
          (([["apple", "a fruit"], ["banana"]] : List Row).filter
            (fun r => r ≠ ([] : Row))),
        ∃ cc : Code, e = Entity.code cc ∧ cc.isCategory = false) ∧
      (Entity.code (categoryCode g colour "fruit") ::
        (childEntities g colour "fruit"
          (([["apple", "a fruit"], ["banana"]] : List Row).filter
            (fun r => r ≠ ([] : Row))) ++ [Entity.closure])).count Entity.closure = 1 :=
  categoryBlockContiguous demoFs ["fruit"] "fruit"
    [["apple", "a fruit"], ["banana"]] demoEntities demoLogs
    (by decide) (by decide) (by decide) (by decide)

/-- A declared list whose backing file is missing makes the whole load
raise, whether it is the generic list or not. -/
theorem loadCodeLists_missing (fs : FS) (lists : List String) (name : String)
    (hmem : name ∈ lists) (hmiss : fs name = none) :
    raisesError (loadCodeLists fs lists) = true := by
  by_cases hg : GENERIC ∈ lists
  · simp only [loadCodeLists, if_pos hg]
    split
    · rfl
    · rename_i rows hfs
      have hne : name ≠ GENERIC := by
        intro he
        rw [he, hfs] at hmiss
        cases hmiss
      have hmem2 : name ∈ pySorted (tempNames lists rows) := by
        have hx : name ∈ tempNames lists rows :=
          List.mem_append.mpr (Or.inl (List.mem_filter.mpr ⟨hmem, by simp [hne]⟩))
        simpa [pySorted] using ((List.perm_insertionSort pyLeP _).mem_iff).mpr hx
      split
      · rfl
      · rename_i es logs hrec
        have hrun := processNames_missing fs lists name hmem hmiss
          (pySorted (tempNames lists rows)) 0 0 hmem2
        rw [hrec] at hrun
        cases hrun
  · simp only [loadCodeLists, if_neg hg]
    have hmem2 : name ∈ pySorted lists := by
      simpa [pySorted] using ((List.perm_insertionSort pyLeP _).mem_iff).mpr hmem
    exact processNames_missing fs lists name hmem hmiss (pySorted lists) 0 0 hmem2

/-- Claim C4 counterexample: project `demo` declares the non-generic list
`fruit`, whose file is missing.  The load does not log-and-degrade: the
`FileNotFoundError` escapes the constructor itself, so the caller never gets
a codebook on which `write()` could report failure. -/
theorem missingListFileEscapesConstructor :
    mkCodebook demoIndex emptyFs "demo" =
      Except.error (PyError.fileNotFound "fruit") ∧
    raisesError (mkCodebook demoIndex emptyFs "demo") = true := by
  refine ⟨by decide, by decide⟩

/-- Claim C4 (corrected): a declared code list whose file is missing —
generic or non-generic alike — is a hard failure: the `open` call has no
handler, nothing is logged for it, and the exception escapes
`__load_code_lists` and the constructor to the caller; `write()` is never
reached. -/
theorem missingListFileAbortsLoad (projects : String → Option (List String))
    (fs : FS) (pname name : String) (lists : List String)
    (hp : projects pname = some lists) (hmem : name ∈ lists)
    (hmiss : fs name = none) :
    raisesError (mkCodebook projects fs pname) = true := by
  have hload := loadCodeLists_missing fs lists name hmem hmiss
  simp only [mkCodebook, hp]
  split
  · rfl
  · rename_i es logs hrec
    rw [hrec] at hload
    cases hload

/-- Witness for `missingListFileAbortsLoad` at project `demo` with its list
`fruit` missing from the filesystem. -/
theorem missingListFileAbortsLoad_witness :
    demoIndex "demo" = some ["fruit"] ∧
    raisesError (mkCodebook demoIndex emptyFs "demo") = true :=
  ⟨by decide, missingListFileAbortsLoad demoIndex emptyFs "demo" "fruit"
    ["fruit"] (by decide) (by decide) (by decide)⟩

/-- Claim C5 counterexample: in the loaded `demo` project the child emitted
for the successfully unpacked row `("apple", "a fruit")` of category `fruit`
carries the category's colour as its own, and its rendered name is
`"Fruit - Apple"` — a parent-category prefix — not `"Apple"`. -/
theorem childRowColourAndPrefix :
    loadCodeLists demoFs ["fruit"] = Except.ok (demoEntities, demoLogs) ∧
    Entity.code (childCode 1 "#00FF00" "fruit" ["apple", "a fruit"]) ∈ demoEntities ∧
    (childCode 1 "#00FF00" "fruit" ["apple", "a fruit"]).colour = some "#00FF00" ∧
    (childCode 1 "#00FF00" "fruit" ["apple", "a fruit"]).renderedName = "Fruit - Apple" ∧
    (childCode 1 "#00FF00" "fruit" ["apple", "a fruit"]).renderedName ≠ "Apple" := by
  refine ⟨by decide, by decide, by decide, by decide, by decide⟩

/-- Claim C5 (corrected): every category row that unpacks as
`(label, description)` yields a child `Code` with title-cased label and the
description set — but the child receives the category's cycle colour as an
explicit colour of its own, and the title-cased category name is stored as
its parent, so the rendered name attribute is `"{Category} - {Label}"`:
membership is also encoded in the name, not by adjacency alone. -/
theorem childRowEmission (g : Nat) (colour cat label d : String)
    (hcat : pyTitle cat ≠ "") :
    childCode g colour cat [label, d] =
      { guid := guidAt g, name := pyTitle label, parent := some (pyTitle cat),
        colour := some colour, isCodable := true, isCategory := false,
        description := some d } ∧
    (childCode g colour cat [label, d]).renderedName =
      pyTitle cat ++ " - " ++ pyTitle label := by
  constructor
  · simp [childCode]
  · simp [childCode, Code.renderedName, hcat]

/-- Witness for `childRowEmission` at the `demo` row `("apple", "a fruit")`. -/
theorem childRowEmission_witness :
    pyTitle "fruit" ≠ "" ∧
    (childCode 1 "#00FF00" "fruit" ["apple", "a fruit"] =
      { guid := guidAt 1, name := pyTitle "apple",
        parent := some (pyTitle "fruit"), colour := some "#00FF00",
        isCodable := true, isCategory := false,
        description := some "a fruit" } ∧
    (childCode 1 "#00FF00" "fruit" ["apple", "a fruit"]).renderedName =
      pyTitle "fruit" ++ " - " ++ pyTitle "apple") :=
  ⟨by decide, childRowEmission 1 "#00FF00" "fruit" "apple" "a fruit" (by decide)⟩

/-- Claim C6 counterexample: the fallback child for the malformed row
`["banana"]` of the loaded `demo` project receives the category's cycle
colour `#00FF00`, not the fixed neutral `#C0C0C0` the claim names (that
string occurs nowhere in the source). -/
theorem fallbackColourNotNeutral :
    loadCodeLists demoFs ["fruit"] = Except.ok (demoEntities, demoLogs) ∧
    Entity.code (childCode 2 "#00FF00" "fruit" ["banana"]) ∈ demoEntities ∧
    (childCode 2 "#00FF00" "fruit" ["banana"]).colour = some "#00FF00" ∧
    (childCode 2 "#00FF00" "fruit" ["banana"]).colour ≠ some "#C0C0C0" ∧
    (childCode 2 "#00FF00" "fruit" ["banana"]).description = none ∧
    demoLogs = [LogEvent.valueErr ["banana"]] := by
  refine ⟨by decide, by decide, by decide, by decide, by decide, by decide⟩

/-- Claim C6 (corrected): a category row that fails `(label, description)`
unpacking is logged as a `ValueError` and yields a fallback child with no
description — but its colour is the category's current cycle colour (and the
category is stored as its parent), not a fixed neutral `#C0C0C0`. -/
theorem fallbackChildUsesCycleColour (g : Nat) (colour cat : String)
    (row : Row) (hlen : row.length ≠ 2) :
    (childCode g colour cat row).colour = some colour ∧
    (childCode g colour cat row).description = none ∧
    (childCode g colour cat row).name = pyTitle (row.headD "") ∧
    (childCode g colour cat row).parent = some (pyTitle cat) ∧
    rowLog row = some (LogEvent.valueErr row) := by
  refine ⟨rfl, ?_, rfl, rfl, ?_⟩
  · simp [childCode, hlen]
  · simp [rowLog, hlen]

/-- Witness for `fallbackChildUsesCycleColour` at the `demo` row
`["banana"]`. -/
theorem fallbackChildUsesCycleColour_witness :
    (["banana"] : Row).length ≠ 2 ∧
    ((childCode 2 "#00FF00" "fruit" ["banana"]).colour = some "#00FF00" ∧
    (childCode 2 "#00FF00" "fruit" ["banana"]).description = none ∧
    (childCode 2 "#00FF00" "fruit" ["banana"]).name = pyTitle "banana" ∧
    (childCode 2 "#00FF00" "fruit" ["banana"]).parent = some (pyTitle "fruit") ∧
    rowLog ["banana"] = some (LogEvent.valueErr ["banana"])) :=
  ⟨by decide, by
    have h := fallbackChildUsesCycleColour 2 "#00FF00" "fruit" ["banana"] (by decide)
    simpa using h⟩

/-- Claim C7 counterexample: in the `mixedFs` project the generic list
contributes the (skipped) bare name `apple`, which sorts before the only
category `fruit`.  That category — category index 0 — is emitted with colour
`#FF0000` = palette[1], not palette[0 mod 8] = `#00FF00`: `next(colours)` is
drawn for skipped generic names too. -/
theorem colourSkewedByGenericNames :
    loadCodeLists mixedFs ["fruit", GENERIC] = Except.ok (mixedEntities, []) ∧
    (categoryCode 0 "#FF0000" "fruit").colour = some "#FF0000" ∧
    COLOURS.getD (0 % COLOURS.length) "" = "#00FF00" ∧
    ("#FF0000" : String) ≠ "#00FF00" := by
  refine ⟨by decide, rfl, by decide, by decide⟩

/-- Claim C7 (corrected): the colour a category receives is
`COLOURS[p mod 8]` where `p` is the category's position in the sorted
working-name list — a list that also contains the skipped generic-derived
names — not its index among categories alone; as the load is a pure function
of the inputs, the assignment is deterministic across repeated runs. -/
theorem colourFollowsWorkingPosition (fs : FS) (lists : List String)
    (name : String) (rows : List Row) (names : List String) (k : Nat)
    (es : List Entity) (logs : List LogEvent)
    (hw : workingNames fs lists = Except.ok names)
    (hk : names.get? k = some name)
    (hcat : name ∈ lists) (hfs : fs name = some rows)
    (h : loadCodeLists fs lists = Except.ok (es, logs)) :
    ∃ pre post g,
      es = pre ++ categoryBlock g (COLOURS.getD (k % COLOURS.length) "") name
          (rows.filter (fun r => r ≠ ([] : Row))) ++ post := by
  obtain ⟨names2, logs2, hw2, hrun⟩ := loadCodeLists_to_processNames fs lists es logs h
  rw [hw] at hw2
  injection hw2 with hw2
  subst hw2
  obtain ⟨pre, post, g2, hes⟩ :=
    processNames_get fs lists name rows hcat hfs names k 0 0 es logs2 hk hrun
  refine ⟨pre, post, g2, ?_⟩
  simpa [colourAt] using hes

/-- Witness for `colourFollowsWorkingPosition`: in the `mixedFs` project the
category `fruit` sits at position 1 of the working names and receives
palette[1]. -/
theorem colourFollowsWorkingPosition_witness :
    ∃ pre post g,
      mixedEntities = pre ++ categoryBlock g (COLOURS.getD (1 % COLOURS.length) "")
          "fruit" (([] : List Row).filter (fun r => r ≠ ([] : Row))) ++ post :=
  colourFollowsWorkingPosition mixedFs ["fruit", GENERIC] "fruit" ([] : List Row)
    ["apple", "fruit"] 1 mixedEntities [] (by decide) (by decide) (by decide)
    (by decide) (by decide)

/-- Claim C8 counterexample: `workingNames` is not deduplicated — a generic
row repeating a category name appears twice — and its order is not the
lowercased-lexicographic one: discovery keeps file-name case
(`projectListNames`), and the plain case-sensitive sort puts `"B"` (code
point 66) before `"a"` (97) although their lowercasings order the other way
round. -/
theorem workingNamesNotDedupNorLowercase :
    workingNames duplicateFs ["fruit", GENERIC] = Except.ok ["fruit", "fruit"] ∧
    (["fruit", "fruit"] : List String).count "fruit" = 2 ∧
    ¬ (["fruit", "fruit"] : List String).Nodup ∧
    projectListNames ["B.csv", "a.csv"] = ["B", "a"] ∧
    workingNames emptyFs ["B", "a"] = Except.ok ["B", "a"] ∧
    pyLe (pyLower "B") (pyLower "a") = false := by
  refine ⟨by decide, by decide, by decide, by decide, by decide, by decide⟩

/-- Claim C8 (corrected): `workingNames` is the concatenation — duplicates
preserved, no deduplication — of the non-generic category names with the
lowercased generic-derived names, sorted case-sensitively by code point;
being a pure function it is deterministic, and it is the single ordering
authority: the entity sequence of every successful load is exactly what the
main loop produces by walking it in order. -/
theorem workingNamesSortedCaseSensitive (fs : FS) (lists : List String)
    (names : List String) (hw : workingNames fs lists = Except.ok names) :
    List.Sorted pyLeP names ∧
    ((GENERIC ∈ lists → ∀ rows, fs GENERIC = some rows →
        names.Perm (tempNames lists rows)) ∧
      (GENERIC ∉ lists → names.Perm lists)) ∧
    (∀ es logs, loadCodeLists fs lists = Except.ok (es, logs) →
      ∃ logs2, processNames fs lists 0 0 names = Except.ok (es, logs2)) := by
  have third : ∀ es logs, loadCodeLists fs lists = Except.ok (es, logs) →
      ∃ logs2, processNames fs lists 0 0 names = Except.ok (es, logs2) := by
    intro es logs hl
    obtain ⟨names2, logs2, hw2, hrun⟩ := loadCodeLists_to_processNames fs lists es logs hl
    rw [hw] at hw2
    injection hw2 with hw2
    subst hw2
    exact ⟨logs2, hrun⟩
  by_cases hg : GENERIC ∈ lists
  · simp only [workingNames, if_pos hg] at hw
    split at hw
    · cases hw
    · rename_i rows0 hfs
      injection hw with hw
      subst hw
      refine ⟨by simpa [pySorted] using List.sorted_insertionSort pyLeP (tempNames lists rows0),
        ⟨?_, fun hng => absurd hg hng⟩, third⟩
      intro _ rows hfs2
      rw [hfs2] at hfs
      injection hfs with hfs
      rw [hfs]
      simpa [pySorted] using List.perm_insertionSort pyLeP (tempNames lists rows0)
  · simp only [workingNames, if_neg hg] at hw
    injection hw with hw
    subst hw
    refine ⟨by simpa [pySorted] using List.sorted_insertionSort pyLeP lists,
      ⟨fun hg2 => absurd hg2 hg, ?_⟩, third⟩
    intro _
    simpa [pySorted] using List.perm_insertionSort pyLeP lists

/-- Witness for `workingNamesSortedCaseSensitive` at the `duplicateFs`
project. -/
theorem workingNamesSortedCaseSensitive_witness :
    List.Sorted pyLeP ["fruit", "fruit"] ∧
    ((GENERIC ∈ ["fruit", GENERIC] → ∀ rows, duplicateFs GENERIC = some rows →
        (["fruit", "fruit"] : List String).Perm (tempNames ["fruit", GENERIC] rows)) ∧
      (GENERIC ∉ ["fruit", GENERIC] →
        (["fruit", "fruit"] : List String).Perm ["fruit", GENERIC])) ∧
    (∀ es logs, loadCodeLists duplicateFs ["fruit", GENERIC] = Except.ok (es, logs) →
      ∃ logs2, processNames duplicateFs ["fruit", GENERIC] 0 0 ["fruit", "fruit"] =
        Except.ok (es, logs2)) :=
  workingNamesSortedCaseSensitive duplicateFs ["fruit", GENERIC]
    ["fruit", "fruit"] (by decide)

/-- Claim C9: for a project name absent from the discovery index the
constructor yields a null codebook (`name = None`) without raising, and its
`write()` returns the falsy `False` while performing no file writes — the
name check precedes all I/O. -/
theorem writeUnknownProjectFails (projects : String → Option (List String))
    (fs : FS) (pname cwd ts : String) (hp : projects pname = none) :
    mkCodebook projects fs pname =
      Except.ok { name := none, code_lists := none, codes := none } ∧
    Codebook.write { name := none, code_lists := none, codes := none } cwd ts =
      (PyRet.pyFalse, []) ∧
    PyRet.truthy PyRet.pyFalse = false := by
  refine ⟨?_, rfl, rfl⟩
  simp [mkCodebook, hp]

/-- Witness for `writeUnknownProjectFails` at the project `ghost` and the
empty index. -/
theorem writeUnknownProjectFails_witness :
    emptyIndex "ghost" = none ∧
    (mkCodebook emptyIndex emptyFs "ghost" =
      Except.ok { name := none, code_lists := none, codes := none } ∧
    Codebook.write { name := none, code_lists := none, codes := none } "cwd" "ts" =
      (PyRet.pyFalse, []) ∧
    PyRet.truthy PyRet.pyFalse = false) :=
  ⟨rfl, writeUnknownProjectFails emptyIndex emptyFs "ghost" "cwd" "ts" rfl⟩

/-- Claim C10: on a null codebook (unknown project name) the `codes`,
`code_lists`, `xml` and `text` properties all raise `AttributeError`,
because the constructor's unknown-project branch never assigns their backing
attributes; only `name` (read as `None`) and `write()` (returning `False`)
are safe. -/
theorem nullCodebookAttributesRaise (projects : String → Option (List String))
    (fs : FS) (pname cwd ts : String) (cb : Codebook)
    (hp : projects pname = none)
    (hcb : mkCodebook projects fs pname = Except.ok cb) :
    cb.codesGet = Except.error AttrFailure.attrError ∧
    cb.codeListsGet = Except.error AttrFailure.attrError ∧
    cb.xmlGet = Except.error AttrFailure.attrError ∧
    cb.textGet = Except.error AttrFailure.attrError ∧
    cb.name = none ∧
    cb.write cwd ts = (PyRet.pyFalse, []) := by
  have hnull : cb = { name := none, code_lists := none, codes := none } := by
    simp only [mkCodebook, hp] at hcb
    injection hcb with hcb
    exact hcb.symm
  subst hnull
  exact ⟨rfl, rfl, rfl, rfl, rfl, rfl⟩

/-- Witness for `nullCodebookAttributesRaise` at the project `ghost`. -/
theorem nullCodebookAttributesRaise_witness :
    emptyIndex "ghost" = none ∧
    (Codebook.codesGet { name := none, code_lists := none, codes := none } =
      Except.error AttrFailure.attrError ∧
    Codebook.codeListsGet { name := none, code_lists := none, codes := none } =
      Except.error AttrFailure.attrError ∧
    Codebook.xmlGet { name := none, code_lists := none, codes := none } =
      Except.error AttrFailure.attrError ∧
    Codebook.textGet { name := none, code_lists := none, codes := none } =
      Except.error AttrFailure.attrError ∧
    Codebook.name { name := none, code_lists := none, codes := none } = none ∧
    Codebook.write { name := none, code_lists := none, codes := none } "cwd" "ts" =
      (PyRet.pyFalse, [])) :=
  ⟨rfl, nullCodebookAttributesRaise emptyIndex emptyFs "ghost" "cwd" "ts"
    { name := none, code_lists := none, codes := none } rfl (by decide)⟩
